import Mathlib

/-!
Verification of the web-scraper repository's core components:
the statistics aggregator (`calculateLoadTestSummary`), the bounded-concurrency
load-test scheduler (`runLoadTest` / `processQueue`), the recursive sitemap
resolver (`extractUrlsFromSitemap`) and the reachability checker
(`checkPageExist`), shallowly embedded from `src/index.ts` and
`src/load-test.ts`.
-/

/-- Model of the JavaScript number values that the aggregator can produce:
finite rationals (all arithmetic in the source is over integer millisecond
counts and exact divisions), the two infinities produced by `Math.min()`,
`Math.max()` and division by zero, and `NaN` produced by `0 / 0`. -/
inductive JsNum where
  | num : ℚ → JsNum
  | posInf : JsNum
  | negInf : JsNum
  | nan : JsNum
  deriving DecidableEq

/-- JavaScript division `a / b` on finite numbers: `0 / 0` is `NaN`,
`a / 0` is `±Infinity` for nonzero `a`, otherwise the exact quotient. -/
def jsDiv (a b : ℚ) : JsNum :=
  if b = 0 then
    if a = 0 then JsNum.nan
    else if 0 < a then JsNum.posInf
    else JsNum.negInf
  else JsNum.num (a / b)

/-- JavaScript `x || 0`: the falsy numbers (`0`, `-0`, `NaN`) are replaced by
`0`; everything else — including `Infinity` and `-Infinity`, which are
truthy — is kept. -/
def jsOrZero : JsNum → JsNum
  | JsNum.num q => if q = 0 then JsNum.num 0 else JsNum.num q
  | JsNum.nan => JsNum.num 0
  | JsNum.posInf => JsNum.posInf
  | JsNum.negInf => JsNum.negInf

/-- `Math.min(...xs)`: `Infinity` on the empty argument list, otherwise the
least element. -/
def jsMinList : List Nat → JsNum
  | [] => JsNum.posInf
  | x :: xs => JsNum.num ((xs.foldl Nat.min x : Nat) : ℚ)

/-- `Math.max(...xs)`: `-Infinity` on the empty argument list, otherwise the
greatest element. -/
def jsMaxList : List Nat → JsNum
  | [] => JsNum.negInf
  | x :: xs => JsNum.num ((xs.foldl Nat.max x : Nat) : ℚ)

/-- Per-request record created by `loadTestUrl` (interface `LoadTestResult`
in `src/load-test.ts`). Response times and timestamps are integral
milliseconds. -/
structure LoadTestResult where
  url : String
  success : Bool
  statusCode : Option Nat
  responseTime : Nat
  error : Option String
  timestamp : Nat
  deriving DecidableEq

/-- Summary record (interface `LoadTestSummary` in `src/load-test.ts`).
The `Record` objects are modelled as association lists. -/
structure LoadTestSummary where
  totalRequests : Nat
  successfulRequests : Nat
  failedRequests : Nat
  averageResponseTime : JsNum
  minResponseTime : JsNum
  maxResponseTime : JsNum
  requestsPerSecond : JsNum
  duration : ℚ
  statusCodeDistribution : List (Nat × Nat)
  errors : List (String × Nat)
  deriving DecidableEq

/-- `(m[k] || 0) + 1` assignment on a `Record<number, number>`. -/
def bumpCountNat (m : List (Nat × Nat)) (k : Nat) : List (Nat × Nat) :=
  if (m.lookup k).isSome then
    m.map (fun p => if p.1 = k then (p.1, p.2 + 1) else p)
  else m ++ [(k, 1)]

/-- `(m[k] || 0) + 1` assignment on a `Record<string, number>`. -/
def bumpCountStr (m : List (String × Nat)) (k : String) : List (String × Nat) :=
  if (m.lookup k).isSome then
    m.map (fun p => if p.1 = k then (p.1, p.2 + 1) else p)
  else m ++ [(k, 1)]

/-- Embedding of `calculateLoadTestSummary` from `src/load-test.ts`.
`duration` is the elapsed wall-clock time in seconds (a rational, since the
source divides a millisecond count by 1000). The guards `if (r.statusCode)`
and `if (r.error)` are JavaScript truthiness tests, so a status code of `0`
and an empty error string are skipped. -/
def calculateLoadTestSummary (results : List LoadTestResult) (duration : ℚ) :
    LoadTestSummary :=
  let responseTimes := results.map (fun r => r.responseTime)
  let successfulResults := results.filter (fun r => r.success)
  let failedResults := results.filter (fun r => ! r.success)
  let statusCodeDistribution := results.foldl
    (fun m r =>
      match r.statusCode with
      | some s => if s = 0 then m else bumpCountNat m s
      | none => m) []
  let errors := failedResults.foldl
    (fun m r =>
      match r.error with
      | some e => if e = "" then m else bumpCountStr m e
      | none => m) []
  { totalRequests := results.length
    successfulRequests := successfulResults.length
    failedRequests := failedResults.length
    averageResponseTime :=
      jsOrZero (jsDiv ((responseTimes.foldl (fun a b => a + b) 0 : Nat) : ℚ)
        ((responseTimes.length : Nat) : ℚ))
    minResponseTime := jsOrZero (jsMinList responseTimes)
    maxResponseTime := jsOrZero (jsMaxList responseTimes)
    requestsPerSecond := jsOrZero (jsDiv ((results.length : Nat) : ℚ) duration)
    duration := duration
    statusCodeDistribution := statusCodeDistribution
    errors := errors }

/-- Every list splits into the part satisfying a Boolean predicate and the
part falsifying it. -/
theorem length_filter_add_length_filter_not {α : Type} (l : List α) (p : α → Bool) :
    (l.filter p).length + (l.filter (fun x => ! p x)).length = l.length := by
  induction l with
  | nil => simp
  | cons a l ih =>
    by_cases h : p a = true <;>
      simp [List.filter_cons, h] <;> omega

/-- C10: For every result collection, the summary satisfies
`totalRequests = successfulRequests + failedRequests`: each result lands in
exactly one of the two buckets according to its `success` flag. -/
theorem calculateLoadTestSummary_total_split (results : List LoadTestResult) (d : ℚ) :
    (calculateLoadTestSummary results d).totalRequests =
      (calculateLoadTestSummary results d).successfulRequests +
        (calculateLoadTestSummary results d).failedRequests := by
  show results.length =
    (results.filter (fun r => r.success)).length +
      (results.filter (fun r => ! r.success)).length
  exact (length_filter_add_length_filter_not results (fun r => r.success)).symm

/-- C1 (failing input): on the empty result collection the source computes
`Math.min() || 0 = Infinity` and `Math.max() || 0 = -Infinity`, not the `0`
the specification states, because the infinities are truthy and survive
`|| 0`; on nonempty collections the extrema are computed correctly. -/
theorem calculateLoadTestSummary_empty_extrema :
    (calculateLoadTestSummary [] 1).minResponseTime = JsNum.posInf ∧
    (calculateLoadTestSummary [] 1).maxResponseTime = JsNum.negInf ∧
    (calculateLoadTestSummary
      [{ url := "a", success := true, statusCode := some 200, responseTime := 5,
         error := none, timestamp := 5 },
       { url := "b", success := true, statusCode := some 200, responseTime := 9,
         error := none, timestamp := 9 }] 1).minResponseTime = JsNum.num 5 ∧
    (calculateLoadTestSummary
      [{ url := "a", success := true, statusCode := some 200, responseTime := 5,
         error := none, timestamp := 5 },
       { url := "b", success := true, statusCode := some 200, responseTime := 9,
         error := none, timestamp := 9 }] 1).maxResponseTime = JsNum.num 9 := by
  decide

/-- C2 (failing input): with a nonempty result collection and
`elapsedSeconds = 0` the source computes `1 / 0 || 0 = Infinity`, not the `0`
the specification states; with a nonzero elapsed time the quotient is exact,
and only the empty collection at `0` seconds (where `0 / 0` is `NaN`, which
is falsy) yields `0`. -/
theorem calculateLoadTestSummary_rps_zero_duration :
    (calculateLoadTestSummary
      [{ url := "a", success := true, statusCode := some 200, responseTime := 5,
         error := none, timestamp := 5 }] 0).requestsPerSecond = JsNum.posInf ∧
    (calculateLoadTestSummary
      [{ url := "a", success := true, statusCode := some 200, responseTime := 5,
         error := none, timestamp := 5 }] 2).requestsPerSecond = JsNum.num (1 / 2) ∧
    (calculateLoadTestSummary [] 0).requestsPerSecond = JsNum.num 0 := by
  refine ⟨?_, ?_, ?_⟩ <;> norm_num [calculateLoadTestSummary, jsDiv, jsOrZero]

/-- Outcome of the `axios.head` probe issued by `checkPageExist`: a completed
response that passed axios's status validation, an axios error carrying the
response status when a response was received (`error.response?.status`), or a
non-axios error. -/
inductive ProbeOutcome where
  | completed : Nat → ProbeOutcome
  | axiosFailure : Option Nat → ProbeOutcome
  | otherFailure : ProbeOutcome
  deriving DecidableEq

/-- Embedding of `checkPageExist` from `src/index.ts`: `true` on a completed
probe, `false` when the caught error is an axios error whose response status
is 404, and the original error re-raised otherwise. -/
def checkPageExist : ProbeOutcome → Except ProbeOutcome Bool
  | ProbeOutcome.completed _ => Except.ok true
  | ProbeOutcome.axiosFailure s =>
    if s = some 404 then Except.ok false
    else Except.error (ProbeOutcome.axiosFailure s)
  | ProbeOutcome.otherFailure => Except.error ProbeOutcome.otherFailure

/-- C9: `checkPageExist` classifies an HTTP 404 probe outcome as `false`, any
successful response as `true`, and re-raises every other transport or status
failure unchanged to the caller. -/
theorem checkPageExist_classification (s : Nat) (st : Option Nat)
    (hne : st ≠ some 404) :
    checkPageExist (ProbeOutcome.axiosFailure (some 404)) = Except.ok false ∧
    checkPageExist (ProbeOutcome.completed s) = Except.ok true ∧
    checkPageExist (ProbeOutcome.axiosFailure st) =
      Except.error (ProbeOutcome.axiosFailure st) ∧
    checkPageExist ProbeOutcome.otherFailure =
      Except.error ProbeOutcome.otherFailure := by
  refine ⟨rfl, rfl, ?_, rfl⟩
  simp [checkPageExist, hne]

/-- C9 witness: the classification theorem instantiated at a 200 response and
a 500-status axios failure. -/
theorem checkPageExist_classification_witness :
    checkPageExist (ProbeOutcome.axiosFailure (some 404)) = Except.ok false ∧
    checkPageExist (ProbeOutcome.completed 200) = Except.ok true ∧
    checkPageExist (ProbeOutcome.axiosFailure (some 500)) =
      Except.error (ProbeOutcome.axiosFailure (some 500)) ∧
    checkPageExist ProbeOutcome.otherFailure =
      Except.error ProbeOutcome.otherFailure :=
  checkPageExist_classification 200 (some 500) (by decide)

/-- One `<sitemap>` or `<url>` entry of a parsed sitemap document, as xml2js
delivers it: a `loc` field holding a list of strings (possibly empty or
holding an empty string, both of which the source skips as falsy). -/
structure SmEntry where
  loc : List String
  deriving DecidableEq

/-- Parsed sitemap document (interface `ParsedSitemap` in `src/index.ts`):
an optional sitemap-index entry list and an optional urlset entry list.
`none` covers both a missing field and a falsy inner array field. -/
structure ParsedSitemap where
  sitemapIndex : Option (List SmEntry)
  urlset : Option (List SmEntry)
  deriving DecidableEq

/-- JavaScript `s.endsWith(post)`, computed on the character lists. -/
def jsEndsWith (s post : String) : Bool :=
  post.data.isSuffixOf s.data

/-- The `sitemap.loc && sitemap.loc[0]` guard: the first `loc` string when it
exists and is truthy (nonempty). -/
def entryLoc (e : SmEntry) : Option String :=
  match e.loc with
  | [] => none
  | l :: _ => if l = "" then none else some l

/-- The network seen by the resolver: a finite map from sitemap URL to the
outcome of fetching and parsing it. A URL that is absent, or present but
mapped to `none`, stands for a fetch or parse failure (the `catch` branch of
the source). -/
def SitemapNet : Type := List (String × Option ParsedSitemap)

/-- Fetch plus `parseXML`: `none` is any fetch or parse failure. -/
def fetchParse (net : SitemapNet) (url : String) : Option ParsedSitemap :=
  match List.lookup url net with
  | none => none
  | some o => o

/-- Resolver state: the shared `visitedSitemaps` set (modelled as a list), a
log of the URLs actually fetched (one entry per `axios.get` issued), and a
flag recording whether the fuel-bounded recursion was ever cut short. -/
structure RState where
  vis : List String
  log : List String
  exhausted : Bool
  deriving DecidableEq

/-- The shared per-location loop body of `extractUrlsFromSitemap`, used
identically for sitemap-index entries and urlset entries: a skipped or falsy
`loc` contributes nothing, a location ending in `.xml` is resolved
recursively through `ex` (threading the shared visited set), and any other
location is emitted directly. Results are concatenated in document order. -/
def processLocsAux (ex : String → RState → List String × RState) :
    List SmEntry → List String × RState → List String × RState
  | [], acc => acc
  | e :: rest, (us, st) =>
    match entryLoc e with
    | none => processLocsAux ex rest (us, st)
    | some u =>
      if jsEndsWith u ".xml" then
        let r := ex u st
        processLocsAux ex rest (us ++ r.1, r.2)
      else
        processLocsAux ex rest (us ++ [u], st)

/-- Embedding of `extractUrlsFromSitemap` from `src/index.ts`, with a fuel
parameter standing for the recursion budget. A URL already in the visited
set returns empty immediately without fetching; otherwise the URL is added
to the visited set, fetched (logged), and on success the document is
classified: a sitemap index takes priority over a urlset, and both are
walked by the same per-location rule. Running out of fuel sets the
`exhausted` flag; the termination theorem shows the flag stays `false`
whenever the fuel exceeds the number of unvisited network URLs. -/
def extractUrlsFromSitemap (net : SitemapNet) :
    Nat → String → RState → List String × RState
  | 0, _, st => ([], { st with exhausted := true })
  | f + 1, url, st =>
    if url ∈ st.vis then ([], st)
    else
      let st1 : RState := { st with vis := url :: st.vis, log := st.log ++ [url] }
      match fetchParse net url with
      | none => ([], st1)
      | some doc =>
        match doc.sitemapIndex with
        | some entries =>
          processLocsAux (extractUrlsFromSitemap net f) entries ([], st1)
        | none =>
          match doc.urlset with
          | some urlEntries =>
            processLocsAux (extractUrlsFromSitemap net f) urlEntries ([], st1)
          | none => ([], st1)

/-- Number of distinct network URLs not yet in the visited set: the
termination measure of the resolver. -/
def keysMissing (net : SitemapNet) (vis : List String) : Nat :=
  (((net.map Prod.fst).dedup).filter (fun k => decide (k ∉ vis))).length

/-- Shrinking the set defined by a Boolean predicate cannot grow the filter. -/
theorem length_filter_le_of_imp {α : Type} (l : List α) (p q : α → Bool)
    (h : ∀ x ∈ l, q x = true → p x = true) :
    (l.filter q).length ≤ (l.filter p).length := by
  induction l with
  | nil => simp
  | cons a l ih =>
    have ih' := ih (fun x hx => h x (List.mem_cons_of_mem a hx))
    by_cases hq : q a = true
    · have hp := h a (List.mem_cons_self a l) hq
      simp [List.filter_cons, hp, hq]; omega
    · have hq' : q a = false := by simp at hq; exact hq
      by_cases hp : p a = true <;>
        simp [List.filter_cons, hp, hq'] <;> omega

/-- A member kept by `p` but dropped by `q` makes the `q`-filter strictly
shorter, provided `q` implies `p`. -/
theorem length_filter_lt_of_witness {α : Type} (l : List α) (p q : α → Bool)
    (a : α) (ha : a ∈ l) (hpa : p a = true) (hqa : q a = false)
    (h : ∀ x ∈ l, q x = true → p x = true) :
    (l.filter q).length < (l.filter p).length := by
  induction l with
  | nil => simp at ha
  | cons b l ih =>
    have hrest : ∀ x ∈ l, q x = true → p x = true :=
      fun x hx => h x (List.mem_cons_of_mem b hx)
    rcases List.mem_cons.mp ha with hab | hal
    · subst hab
      simp [List.filter_cons, hpa, hqa]
      calc (l.filter q).length ≤ (l.filter p).length :=
            length_filter_le_of_imp l p q hrest
        _ < (l.filter p).length + 1 := Nat.lt_succ_self _
    · have ih' := ih hal hrest
      by_cases hq : q b = true
      · have hp := h b (List.mem_cons_self b l) hq
        simp [List.filter_cons, hp, hq]; omega
      · have hq' : q b = false := by simp at hq; exact hq
        by_cases hp : p b = true <;>
          simp [List.filter_cons, hp, hq'] <;> omega

/-- A successful lookup means the key occurs in the association list. -/
theorem lookup_some_mem_keys {α β : Type} [BEq α] [LawfulBEq α]
    (l : List (α × β)) (a : α) (b : β) (h : List.lookup a l = some b) :
    a ∈ l.map Prod.fst := by
  induction l with
  | nil => simp [List.lookup] at h
  | cons kv l ih =>
    rw [List.lookup] at h
    cases hk : (a == kv.1) with
    | true =>
      have : a = kv.1 := eq_of_beq hk
      simp [this]
    | false =>
      rw [hk] at h
      exact List.mem_cons_of_mem _ (ih h)

/-- Growing the visited set cannot increase the number of missing keys. -/
theorem keysMissing_mono (net : SitemapNet) (v1 v2 : List String)
    (h : ∀ x ∈ v1, x ∈ v2) :
    keysMissing net v2 ≤ keysMissing net v1 := by
  apply length_filter_le_of_imp
  intro x _ hx
  simp only [decide_eq_true_eq] at hx ⊢
  intro hx1
  exact hx (h x hx1)

/-- Visiting an unvisited network URL strictly decreases the number of
missing keys. -/
theorem keysMissing_cons_lt (net : SitemapNet) (vis : List String)
    (url : String) (hk : url ∈ net.map Prod.fst) (hv : url ∉ vis) :
    keysMissing net (url :: vis) < keysMissing net vis := by
  apply length_filter_lt_of_witness _ _ _ url
  · exact List.mem_dedup.mpr hk
  · simp [hv]
  · simp
  · intro x _ hx
    simp only [decide_eq_true_eq] at hx ⊢
    intro hx1
    exact hx (List.mem_cons_of_mem url hx1)

/-- A successful `fetchParse` means the URL is one of the network's keys. -/
theorem fetchParse_some_mem_keys (net : SitemapNet) (url : String)
    (doc : ParsedSitemap) (h : fetchParse net url = some doc) :
    url ∈ net.map Prod.fst := by
  unfold fetchParse at h
  cases hl : List.lookup url net with
  | none => rw [hl] at h; cases h
  | some o => exact lookup_some_mem_keys net url o hl

/-- Unfolding lemma: a skipped or falsy `loc` contributes nothing. -/
theorem processLocsAux_cons_none (ex : String → RState → List String × RState)
    (e : SmEntry) (rest : List SmEntry) (us : List String) (st : RState)
    (h : entryLoc e = none) :
    processLocsAux ex (e :: rest) (us, st) = processLocsAux ex rest (us, st) := by
  simp [processLocsAux, h]

/-- Unfolding lemma: a location ending in `.xml` is resolved recursively and
its URLs are appended, threading the updated state. -/
theorem processLocsAux_cons_xml (ex : String → RState → List String × RState)
    (e : SmEntry) (rest : List SmEntry) (us : List String) (st : RState)
    (u : String) (h : entryLoc e = some u) (hx : jsEndsWith u ".xml" = true) :
    processLocsAux ex (e :: rest) (us, st) =
      processLocsAux ex rest (us ++ (ex u st).1, (ex u st).2) := by
  simp [processLocsAux, h, hx]

/-- Unfolding lemma: any other location is emitted directly as a page URL. -/
theorem processLocsAux_cons_page (ex : String → RState → List String × RState)
    (e : SmEntry) (rest : List SmEntry) (us : List String) (st : RState)
    (u : String) (h : entryLoc e = some u) (hx : jsEndsWith u ".xml" = false) :
    processLocsAux ex (e :: rest) (us, st) =
      processLocsAux ex rest (us ++ [u], st) := by
  simp [processLocsAux, h, hx]

/-- Unfolding lemma: a URL already in the visited set returns empty
immediately, leaving the state (visited set and fetch log) untouched. -/
theorem extractUrlsFromSitemap_visited (net : SitemapNet) (f : Nat)
    (url : String) (st : RState) (h : url ∈ st.vis) :
    extractUrlsFromSitemap net (f + 1) url st = ([], st) := by
  simp [extractUrlsFromSitemap, h]

/-- Unfolding lemma: a fetch or parse failure contributes an empty result,
after the URL was added to the visited set and the fetch was logged. -/
theorem extractUrlsFromSitemap_fetchFail (net : SitemapNet) (f : Nat)
    (url : String) (st : RState) (h1 : url ∉ st.vis)
    (h2 : fetchParse net url = none) :
    extractUrlsFromSitemap net (f + 1) url st =
      ([], { st with vis := url :: st.vis, log := st.log ++ [url] }) := by
  simp [extractUrlsFromSitemap, h1, h2]

/-- Unfolding lemma: a sitemap-index document is walked by the shared
per-location rule from the updated state. -/
theorem extractUrlsFromSitemap_index (net : SitemapNet) (f : Nat)
    (url : String) (st : RState) (doc : ParsedSitemap) (entries : List SmEntry)
    (h1 : url ∉ st.vis) (h2 : fetchParse net url = some doc)
    (h3 : doc.sitemapIndex = some entries) :
    extractUrlsFromSitemap net (f + 1) url st =
      processLocsAux (extractUrlsFromSitemap net f) entries
        ([], { st with vis := url :: st.vis, log := st.log ++ [url] }) := by
  simp [extractUrlsFromSitemap, h1, h2, h3]

/-- Unfolding lemma: a urlset document is walked by the same per-location
rule when no sitemap index is present. -/
theorem extractUrlsFromSitemap_urlset (net : SitemapNet) (f : Nat)
    (url : String) (st : RState) (doc : ParsedSitemap) (urlEntries : List SmEntry)
    (h1 : url ∉ st.vis) (h2 : fetchParse net url = some doc)
    (h3 : doc.sitemapIndex = none) (h4 : doc.urlset = some urlEntries) :
    extractUrlsFromSitemap net (f + 1) url st =
      processLocsAux (extractUrlsFromSitemap net f) urlEntries
        ([], { st with vis := url :: st.vis, log := st.log ++ [url] }) := by
  simp [extractUrlsFromSitemap, h1, h2, h3, h4]

/-- Unfolding lemma: a document that is neither an index nor a urlset
contributes nothing. -/
theorem extractUrlsFromSitemap_emptyDoc (net : SitemapNet) (f : Nat)
    (url : String) (st : RState) (doc : ParsedSitemap)
    (h1 : url ∉ st.vis) (h2 : fetchParse net url = some doc)
    (h3 : doc.sitemapIndex = none) (h4 : doc.urlset = none) :
    extractUrlsFromSitemap net (f + 1) url st =
      ([], { st with vis := url :: st.vis, log := st.log ++ [url] }) := by
  simp [extractUrlsFromSitemap, h1, h2, h3, h4]

/-- The per-location walk only grows the shared visited set. -/
theorem processLocsAux_vis_mono (ex : String → RState → List String × RState)
    (hex : ∀ u st, ∀ x ∈ st.vis, x ∈ (ex u st).2.vis) :
    ∀ (es : List SmEntry) (us : List String) (st : RState),
      ∀ x ∈ st.vis, x ∈ (processLocsAux ex es (us, st)).2.vis := by
  intro es
  induction es with
  | nil => intro us st x hx; exact hx
  | cons e rest ih =>
    intro us st x hx
    cases hloc : entryLoc e with
    | none => rw [processLocsAux_cons_none ex e rest us st hloc]; exact ih us st x hx
    | some u =>
      cases hxml : jsEndsWith u ".xml" with
      | true =>
        rw [processLocsAux_cons_xml ex e rest us st u hloc hxml]
        exact ih _ _ x (hex u st x hx)
      | false =>
        rw [processLocsAux_cons_page ex e rest us st u hloc hxml]
        exact ih _ _ x hx

/-- The resolver only grows the shared visited set. -/
theorem extractUrlsFromSitemap_vis_mono (net : SitemapNet) :
    ∀ (f : Nat) (url : String) (st : RState),
      ∀ x ∈ st.vis, x ∈ (extractUrlsFromSitemap net f url st).2.vis := by
  intro f
  induction f with
  | zero => intro url st x hx; exact hx
  | succ f ih =>
    intro url st x hx
    by_cases hv : url ∈ st.vis
    · rw [extractUrlsFromSitemap_visited net f url st hv]; exact hx
    · cases hfp : fetchParse net url with
      | none =>
        rw [extractUrlsFromSitemap_fetchFail net f url st hv hfp]
        exact List.mem_cons_of_mem _ hx
      | some doc =>
        cases hsi : doc.sitemapIndex with
        | some entries =>
          rw [extractUrlsFromSitemap_index net f url st doc entries hv hfp hsi]
          exact processLocsAux_vis_mono _ ih entries [] _ x (List.mem_cons_of_mem _ hx)
        | none =>
          cases hus : doc.urlset with
          | some urlEntries =>
            rw [extractUrlsFromSitemap_urlset net f url st doc urlEntries hv hfp hsi hus]
            exact processLocsAux_vis_mono _ ih urlEntries [] _ x (List.mem_cons_of_mem _ hx)
          | none =>
            rw [extractUrlsFromSitemap_emptyDoc net f url st doc hv hfp hsi hus]
            exact List.mem_cons_of_mem _ hx

/-- If each recursive resolution keeps the fuel budget honest below bound
`F`, so does the per-location walk: the exhausted flag stays `false` and the
missing-key measure stays below `F`. -/
theorem processLocsAux_not_exhausted (net : SitemapNet)
    (ex : String → RState → List String × RState) (F : Nat)
    (hmono : ∀ u st, ∀ x ∈ st.vis, x ∈ (ex u st).2.vis)
    (hex : ∀ u st, st.exhausted = false → keysMissing net st.vis < F →
      (ex u st).2.exhausted = false) :
    ∀ (es : List SmEntry) (us : List String) (st : RState),
      st.exhausted = false → keysMissing net st.vis < F →
      ((processLocsAux ex es (us, st)).2.exhausted = false ∧
        keysMissing net (processLocsAux ex es (us, st)).2.vis < F) := by
  intro es
  induction es with
  | nil => intro us st h1 h2; exact ⟨h1, h2⟩
  | cons e rest ih =>
    intro us st h1 h2
    cases hloc : entryLoc e with
    | none =>
      rw [processLocsAux_cons_none ex e rest us st hloc]
      exact ih us st h1 h2
    | some u =>
      cases hxml : jsEndsWith u ".xml" with
      | true =>
        rw [processLocsAux_cons_xml ex e rest us st u hloc hxml]
        have hch1 : (ex u st).2.exhausted = false := hex u st h1 h2
        have hch2 : keysMissing net (ex u st).2.vis < F :=
          lt_of_le_of_lt (keysMissing_mono net st.vis (ex u st).2.vis (hmono u st)) h2
        exact ih _ _ hch1 hch2
      | false =>
        rw [processLocsAux_cons_page ex e rest us st u hloc hxml]
        exact ih _ _ h1 h2

/-- Termination of the resolver: with fuel exceeding the number of network
URLs not yet visited, the fuel bound is never reached, so the fuel-bounded
embedding computes the untruncated recursion. -/
theorem extractUrlsFromSitemap_not_exhausted (net : SitemapNet) :
    ∀ (f : Nat) (url : String) (st : RState),
      st.exhausted = false → keysMissing net st.vis < f →
      (extractUrlsFromSitemap net f url st).2.exhausted = false := by
  intro f
  induction f with
  | zero => intro url st h1 h2; omega
  | succ f ih =>
    intro url st h1 h2
    by_cases hv : url ∈ st.vis
    · rw [extractUrlsFromSitemap_visited net f url st hv]; exact h1
    · cases hfp : fetchParse net url with
      | none => rw [extractUrlsFromSitemap_fetchFail net f url st hv hfp]; exact h1
      | some doc =>
        have hkey : url ∈ net.map Prod.fst := fetchParse_some_mem_keys net url doc hfp
        have hlt : keysMissing net (url :: st.vis) < keysMissing net st.vis :=
          keysMissing_cons_lt net st.vis url hkey hv
        have hm1 : keysMissing net (url :: st.vis) < f := by omega
        cases hsi : doc.sitemapIndex with
        | some entries =>
          rw [extractUrlsFromSitemap_index net f url st doc entries hv hfp hsi]
          exact (processLocsAux_not_exhausted net _ f (extractUrlsFromSitemap_vis_mono net f)
            ih entries [] { st with vis := url :: st.vis, log := st.log ++ [url] } h1 hm1).1
        | none =>
          cases hus : doc.urlset with
          | some urlEntries =>
            rw [extractUrlsFromSitemap_urlset net f url st doc urlEntries hv hfp hsi hus]
            exact (processLocsAux_not_exhausted net _ f (extractUrlsFromSitemap_vis_mono net f)
              ih urlEntries [] { st with vis := url :: st.vis, log := st.log ++ [url] } h1 hm1).1
          | none =>
            rw [extractUrlsFromSitemap_emptyDoc net f url st doc hv hfp hsi hus]
            exact h1

/-- The per-location walk preserves the fetch-log invariant: the log has no
duplicates and every logged URL is in the visited set. -/
theorem processLocsAux_log_inv
    (ex : String → RState → List String × RState)
    (hex : ∀ u st, st.log.Nodup → (∀ x ∈ st.log, x ∈ st.vis) →
      ((ex u st).2.log.Nodup ∧ ∀ x ∈ (ex u st).2.log, x ∈ (ex u st).2.vis)) :
    ∀ (es : List SmEntry) (us : List String) (st : RState),
      st.log.Nodup → (∀ x ∈ st.log, x ∈ st.vis) →
      ((processLocsAux ex es (us, st)).2.log.Nodup ∧
        ∀ x ∈ (processLocsAux ex es (us, st)).2.log,
          x ∈ (processLocsAux ex es (us, st)).2.vis) := by
  intro es
  induction es with
  | nil => intro us st h1 h2; exact ⟨h1, h2⟩
  | cons e rest ih =>
    intro us st h1 h2
    cases hloc : entryLoc e with
    | none =>
      rw [processLocsAux_cons_none ex e rest us st hloc]
      exact ih us st h1 h2
    | some u =>
      cases hxml : jsEndsWith u ".xml" with
      | true =>
        rw [processLocsAux_cons_xml ex e rest us st u hloc hxml]
        obtain ⟨hc1, hc2⟩ := hex u st h1 h2
        exact ih _ _ hc1 hc2
      | false =>
        rw [processLocsAux_cons_page ex e rest us st u hloc hxml]
        exact ih _ _ h1 h2

/-- The resolver fetches each distinct sitemap URL at most once: it preserves
the invariant that the fetch log is duplicate-free and below the visited set,
because a URL is added to the visited set before its fetch is issued and
visited URLs are never fetched again. -/
theorem extractUrlsFromSitemap_log_inv (net : SitemapNet) :
    ∀ (f : Nat) (url : String) (st : RState),
      st.log.Nodup → (∀ x ∈ st.log, x ∈ st.vis) →
      ((extractUrlsFromSitemap net f url st).2.log.Nodup ∧
        ∀ x ∈ (extractUrlsFromSitemap net f url st).2.log,
          x ∈ (extractUrlsFromSitemap net f url st).2.vis) := by
  intro f
  induction f with
  | zero => intro url st h1 h2; exact ⟨h1, h2⟩
  | succ f ih =>
    intro url st h1 h2
    by_cases hv : url ∈ st.vis
    · rw [extractUrlsFromSitemap_visited net f url st hv]; exact ⟨h1, h2⟩
    · have hul : url ∉ st.log := fun hm => hv (h2 url hm)
      have hn1 : (st.log ++ [url]).Nodup := by
        rw [List.nodup_append]
        refine ⟨h1, List.nodup_singleton url, ?_⟩
        intro x hx hx1
        rw [List.mem_singleton] at hx1
        exact hul (hx1 ▸ hx)
      have hc1 : ∀ x ∈ st.log ++ [url], x ∈ url :: st.vis := by
        intro x hx
        rcases List.mem_append.mp hx with hxl | hxr
        · exact List.mem_cons_of_mem _ (h2 x hxl)
        · rw [List.mem_singleton] at hxr
          rw [hxr]; exact List.mem_cons_self _ _
      cases hfp : fetchParse net url with
      | none =>
        rw [extractUrlsFromSitemap_fetchFail net f url st hv hfp]
        exact ⟨hn1, hc1⟩
      | some doc =>
        cases hsi : doc.sitemapIndex with
        | some entries =>
          rw [extractUrlsFromSitemap_index net f url st doc entries hv hfp hsi]
          exact processLocsAux_log_inv _ ih entries [] _ hn1 hc1
        | none =>
          cases hus : doc.urlset with
          | some urlEntries =>
            rw [extractUrlsFromSitemap_urlset net f url st doc urlEntries hv hfp hsi hus]
            exact processLocsAux_log_inv _ ih urlEntries [] _ hn1 hc1
          | none =>
            rw [extractUrlsFromSitemap_emptyDoc net f url st doc hv hfp hsi hus]
            exact ⟨hn1, hc1⟩

/-- The per-location walk emits no URL ending in `.xml`, given that the
recursive resolutions do not and the accumulator does not. -/
theorem processLocsAux_no_xml
    (ex : String → RState → List String × RState)
    (hex : ∀ u st, ∀ v ∈ (ex u st).1, jsEndsWith v ".xml" = false) :
    ∀ (es : List SmEntry) (us : List String) (st : RState),
      (∀ v ∈ us, jsEndsWith v ".xml" = false) →
      ∀ v ∈ (processLocsAux ex es (us, st)).1, jsEndsWith v ".xml" = false := by
  intro es
  induction es with
  | nil => intro us st hus v hv; exact hus v hv
  | cons e rest ih =>
    intro us st hus v hv
    cases hloc : entryLoc e with
    | none =>
      rw [processLocsAux_cons_none ex e rest us st hloc] at hv
      exact ih us st hus v hv
    | some u =>
      cases hxml : jsEndsWith u ".xml" with
      | true =>
        rw [processLocsAux_cons_xml ex e rest us st u hloc hxml] at hv
        refine ih _ _ ?_ v hv
        intro w hw
        rcases List.mem_append.mp hw with hwl | hwr
        · exact hus w hwl
        · exact hex u st w hwr
      | false =>
        rw [processLocsAux_cons_page ex e rest us st u hloc hxml] at hv
        refine ih _ _ ?_ v hv
        intro w hw
        rcases List.mem_append.mp hw with hwl | hwr
        · exact hus w hwl
        · rw [List.mem_singleton] at hwr
          rw [hwr]; exact hxml

/-- No page URL emitted by the resolver ends in `.xml`: such locations are
always classified as nested sitemaps and recursed into instead. -/
theorem extractUrlsFromSitemap_no_xml (net : SitemapNet) :
    ∀ (f : Nat) (url : String) (st : RState),
      ∀ v ∈ (extractUrlsFromSitemap net f url st).1, jsEndsWith v ".xml" = false := by
  intro f
  induction f with
  | zero => intro url st v hv; cases hv
  | succ f ih =>
    intro url st v hv
    by_cases hvv : url ∈ st.vis
    · rw [extractUrlsFromSitemap_visited net f url st hvv] at hv; cases hv
    · cases hfp : fetchParse net url with
      | none =>
        rw [extractUrlsFromSitemap_fetchFail net f url st hvv hfp] at hv; cases hv
      | some doc =>
        cases hsi : doc.sitemapIndex with
        | some entries =>
          rw [extractUrlsFromSitemap_index net f url st doc entries hvv hfp hsi] at hv
          exact processLocsAux_no_xml _ ih entries [] _ (by intro w hw; cases hw) v hv
        | none =>
          cases hus : doc.urlset with
          | some urlEntries =>
            rw [extractUrlsFromSitemap_urlset net f url st doc urlEntries hvv hfp hsi hus] at hv
            exact processLocsAux_no_xml _ ih urlEntries [] _ (by intro w hw; cases hw) v hv
          | none =>
            rw [extractUrlsFromSitemap_emptyDoc net f url st doc hvv hfp hsi hus] at hv
            cases hv

/-- A small cyclic sitemap network: `a.xml` references `b.xml`, which
references `a.xml` back (a cycle) and one page URL. -/
def sampleNet : SitemapNet :=
  [("a.xml", some { sitemapIndex := some [{ loc := ["b.xml"] }], urlset := none }),
   ("b.xml", some { sitemapIndex := some [{ loc := ["a.xml"] }, { loc := ["page"] }],
                    urlset := none })]

/-- A sitemap network whose root references a child sitemap that fails to
fetch, followed by a page URL. -/
def sampleNetFail : SitemapNet :=
  [("root.xml", some { sitemapIndex := some [{ loc := ["bad.xml"] }, { loc := ["p1"] }],
                       urlset := none })]

/-- C4: The resolver never emits a page URL ending in `.xml`; in both the
sitemap-index and urlset shapes the shared per-location rule resolves a
location ending in `.xml` recursively and emits any other location
directly. -/
theorem extractUrlsFromSitemap_emits_no_xml (net : SitemapNet) (f : Nat)
    (url : String) (st : RState) (v : String)
    (hv : v ∈ (extractUrlsFromSitemap net f url st).1)
    (e1 : SmEntry) (rest1 : List SmEntry) (us1 : List String) (st1 : RState)
    (u1 : String) (he1 : entryLoc e1 = some u1) (hx1 : jsEndsWith u1 ".xml" = true)
    (e2 : SmEntry) (rest2 : List SmEntry) (us2 : List String) (st2 : RState)
    (u2 : String) (he2 : entryLoc e2 = some u2) (hx2 : jsEndsWith u2 ".xml" = false) :
    jsEndsWith v ".xml" = false ∧
    processLocsAux (extractUrlsFromSitemap net f) (e1 :: rest1) (us1, st1) =
      processLocsAux (extractUrlsFromSitemap net f) rest1
        (us1 ++ (extractUrlsFromSitemap net f u1 st1).1,
          (extractUrlsFromSitemap net f u1 st1).2) ∧
    processLocsAux (extractUrlsFromSitemap net f) (e2 :: rest2) (us2, st2) =
      processLocsAux (extractUrlsFromSitemap net f) rest2 (us2 ++ [u2], st2) :=
  ⟨extractUrlsFromSitemap_no_xml net f url st v hv,
   processLocsAux_cons_xml _ e1 rest1 us1 st1 u1 he1 hx1,
   processLocsAux_cons_page _ e2 rest2 us2 st2 u2 he2 hx2⟩

/-- C4 witness: resolving the cyclic sample network emits `page`, which does
not end in `.xml`, and the two per-location rules at concrete entries. -/
theorem extractUrlsFromSitemap_emits_no_xml_witness :
    jsEndsWith "page" ".xml" = false ∧
    processLocsAux (extractUrlsFromSitemap sampleNet 3) [{ loc := ["b.xml"] }]
        ([], ⟨[], [], false⟩) =
      processLocsAux (extractUrlsFromSitemap sampleNet 3) []
        ([] ++ (extractUrlsFromSitemap sampleNet 3 "b.xml" ⟨[], [], false⟩).1,
          (extractUrlsFromSitemap sampleNet 3 "b.xml" ⟨[], [], false⟩).2) ∧
    processLocsAux (extractUrlsFromSitemap sampleNet 3) [{ loc := ["page"] }]
        ([], ⟨[], [], false⟩) =
      processLocsAux (extractUrlsFromSitemap sampleNet 3) [] ([] ++ ["page"], ⟨[], [], false⟩) :=
  extractUrlsFromSitemap_emits_no_xml sampleNet 3 "a.xml" ⟨[], [], false⟩ "page"
    (by decide)
    { loc := ["b.xml"] } [] [] ⟨[], [], false⟩ "b.xml" (by decide) (by decide)
    { loc := ["page"] } [] [] ⟨[], [], false⟩ "page" (by decide) (by decide)

/-- C5: Resolution terminates on every (finite) sitemap network, cyclic ones
included, and fetches each distinct sitemap URL at most once: a call on a
URL already in the visited set returns an empty result immediately without
fetching; every other call adds its URL to the visited set before fetching,
so the fetch log stays duplicate-free and below the visited set; and with
fuel exceeding the missing-key measure the recursion is never cut short. -/
theorem extractUrlsFromSitemap_visits_once (net : SitemapNet) (f : Nat)
    (url : String) (st : RState)
    (h1 : st.log.Nodup) (h2 : ∀ x ∈ st.log, x ∈ st.vis)
    (h3 : st.exhausted = false) (h4 : keysMissing net st.vis < f) :
    extractUrlsFromSitemap net (f + 1) url { st with vis := url :: st.vis } =
      ([], { st with vis := url :: st.vis }) ∧
    ((extractUrlsFromSitemap net f url st).2.log.Nodup ∧
      ∀ x ∈ (extractUrlsFromSitemap net f url st).2.log,
        x ∈ (extractUrlsFromSitemap net f url st).2.vis) ∧
    (extractUrlsFromSitemap net f url st).2.exhausted = false :=
  ⟨extractUrlsFromSitemap_visited net f url { st with vis := url :: st.vis }
      (List.mem_cons_self url st.vis),
   extractUrlsFromSitemap_log_inv net f url st h1 h2,
   extractUrlsFromSitemap_not_exhausted net f url st h3 h4⟩

/-- C5 witness: the cycle `a.xml -> b.xml -> a.xml` of the sample network,
resolved from a fresh state with fuel 3 (two network URLs are missing). -/
theorem extractUrlsFromSitemap_visits_once_witness :
    extractUrlsFromSitemap sampleNet 4 "a.xml" ⟨["a.xml"], [], false⟩ =
      ([], ⟨["a.xml"], [], false⟩) ∧
    ((extractUrlsFromSitemap sampleNet 3 "a.xml" ⟨[], [], false⟩).2.log.Nodup ∧
      ∀ x ∈ (extractUrlsFromSitemap sampleNet 3 "a.xml" ⟨[], [], false⟩).2.log,
        x ∈ (extractUrlsFromSitemap sampleNet 3 "a.xml" ⟨[], [], false⟩).2.vis) ∧
    (extractUrlsFromSitemap sampleNet 3 "a.xml" ⟨[], [], false⟩).2.exhausted = false :=
  extractUrlsFromSitemap_visits_once sampleNet 3 "a.xml" ⟨[], [], false⟩
    (by decide) (by decide) (by decide) (by decide)

/-- C6: The resolver fails softly: a node whose fetch or parse fails
contributes an empty result (after being marked visited and logged), and a
failing nested sitemap inside an entry list leaves the sibling entries to be
processed exactly as before, with no URLs contributed by the failed node —
so resolution always returns a (possibly empty) list of page URLs. -/
theorem extractUrlsFromSitemap_failure_isolation (net : SitemapNet) (f : Nat)
    (url : String) (st : RState) (e : SmEntry) (u : String)
    (rest : List SmEntry) (us : List String) (st' : RState)
    (hv : url ∉ st.vis) (hf : fetchParse net url = none)
    (he : entryLoc e = some u) (hx : jsEndsWith u ".xml" = true)
    (hv' : u ∉ st'.vis) (hf' : fetchParse net u = none) :
    extractUrlsFromSitemap net (f + 1) url st =
      ([], { st with vis := url :: st.vis, log := st.log ++ [url] }) ∧
    processLocsAux (extractUrlsFromSitemap net (f + 1)) (e :: rest) (us, st') =
      processLocsAux (extractUrlsFromSitemap net (f + 1)) rest
        (us, { st' with vis := u :: st'.vis, log := st'.log ++ [u] }) := by
  constructor
  · exact extractUrlsFromSitemap_fetchFail net f url st hv hf
  · rw [processLocsAux_cons_xml _ e rest us st' u he hx,
      extractUrlsFromSitemap_fetchFail net f u st' hv' hf']
    simp

/-- C6 witness: in the failing sample network the unreachable child
`bad.xml` contributes nothing while its sibling entry remains to be
processed. -/
theorem extractUrlsFromSitemap_failure_isolation_witness :
    extractUrlsFromSitemap sampleNetFail 4 "bad.xml" ⟨[], [], false⟩ =
      ([], ⟨["bad.xml"], ["bad.xml"], false⟩) ∧
    processLocsAux (extractUrlsFromSitemap sampleNetFail 4)
        [{ loc := ["bad.xml"] }, { loc := ["p1"] }] ([], ⟨["root.xml"], ["root.xml"], false⟩) =
      processLocsAux (extractUrlsFromSitemap sampleNetFail 4) [{ loc := ["p1"] }]
        ([], ⟨["bad.xml", "root.xml"], ["root.xml", "bad.xml"], false⟩) :=
  extractUrlsFromSitemap_failure_isolation sampleNetFail 3 "bad.xml" ⟨[], [], false⟩
    { loc := ["bad.xml"] } "bad.xml" [{ loc := ["p1"] }] [] ⟨["root.xml"], ["root.xml"], false⟩
    (by decide) (by decide) (by decide) (by decide) (by decide) (by decide)

/-- Outcome of one load-test GET as the transport reports it: a completed
response with its status code (any status is accepted, because the source
passes `validateStatus: () => true`), or a transport-level failure with an
error message. -/
inductive HttpOutcome where
  | response : Nat → HttpOutcome
  | transportError : String → HttpOutcome
  deriving DecidableEq

/-- Options accepted by `runLoadTest` in `src/load-test.ts`. -/
structure LoadTestOptions where
  concurrency : Option Nat
  requestsPerUrl : Option Nat
  duration : Option Nat
  deriving DecidableEq

/-- JavaScript `options.x || default` on an optional numeric option: a
missing option and a falsy `0` both fall back to the default. -/
def resolveOpt (o : Option Nat) (dflt : Nat) : Nat :=
  match o with
  | some v => if v = 0 then dflt else v
  | none => dflt

/-- One `{ url, index }` element of the request queue built by
`runLoadTest`. -/
structure RequestQueueItem where
  url : String
  index : Nat
  deriving DecidableEq

/-- The request queue built eagerly before dispatch: the outer `for` loop
runs over repetition indices `[0, requestsPerUrl)` and the inner `forEach`
pushes every URL in order. -/
def buildRequestQueue (urls : List String) (requestsPerUrl : Nat) :
    List RequestQueueItem :=
  (List.range requestsPerUrl).foldl
    (fun q i => q ++ urls.map (fun u => { url := u, index := i })) []

/-- Embedding of `loadTestUrl` from `src/load-test.ts`: the result record of
a request dispatched at `startTime` whose latency and outcome the
environment determines. `success` is `status in [200, 400)`; a transport
failure carries no status code but an error message. Both branches return a
result — `loadTestUrl` never throws. -/
def loadTestUrl (url : String) (startTime : Nat) (latency : Nat)
    (outcome : HttpOutcome) : LoadTestResult :=
  match outcome with
  | HttpOutcome.response s =>
    { url := url, success := decide (200 ≤ s) && decide (s < 400),
      statusCode := some s, responseTime := latency, error := none,
      timestamp := startTime + latency }
  | HttpOutcome.transportError m =>
    { url := url, success := false, statusCode := none,
      responseTime := latency, error := some m, timestamp := startTime + latency }

/-- An in-flight request of the working set: the result it will deliver and
the absolute time at which its promise settles. -/
structure Flight where
  res : LoadTestResult
  finish : Nat
  deriving DecidableEq

/-- Scheduler state of `processQueue`: the current wall-clock time, the test
start time, the `activeRequests` working set, the `results` collection (in
completion order), a trace of working-set sizes recorded after every change,
the queue items never dispatched, and the elapsed time at which the
duration check stopped dispatch when it did. -/
structure PQState where
  now : Nat
  start : Nat
  active : List Flight
  results : List LoadTestResult
  trace : List Nat
  leftover : List RequestQueueItem
  brokeAt : Option Nat
  deriving DecidableEq

/-- Least element of a list of naturals, `none` when empty: the settle time
`Promise.race` waits for. -/
def listMinNat : List Nat → Option Nat
  | [] => none
  | x :: xs =>
    match listMinNat xs with
    | none => some x
    | some m => some (min x m)

/-- `await Promise.race(activeRequests)`: time advances to the earliest
settle time of the working set; every request settled by then has run its
removal callback and delivered its result by the time the loop resumes. -/
def raceWait (st : PQState) : PQState :=
  match listMinNat (st.active.map (fun fl => fl.finish)) with
  | none => st
  | some m =>
    let t := Nat.max st.now m
    { st with
      now := t,
      active := st.active.filter (fun fl => decide (t < fl.finish)),
      results := st.results ++
        (st.active.filter (fun fl => decide (fl.finish ≤ t))).map (fun fl => fl.res),
      trace := st.trace ++
        [(st.active.filter (fun fl => decide (t < fl.finish))).length] }

/-- `await Promise.all(activeRequests)` after the dispatch loop: the
remaining in-flight requests all settle and deliver their results, and the
working set empties. -/
def drainAll (st : PQState) : PQState :=
  { st with
    now := st.active.foldl (fun t fl => Nat.max t fl.finish) st.now,
    active := [],
    results := st.results ++ st.active.map (fun fl => fl.res),
    trace := st.trace ++ [0] }

/-- The `duration && (Date.now() - testStartTime) / 1000 >= duration` check
guarding each dispatch: a `duration` of `0` is falsy and disables the cap. -/
def durationExceeded (dur : Option Nat) (st : PQState) : Bool :=
  match dur with
  | none => false
  | some d => decide (0 < d) && decide (1000 * d ≤ st.now - st.start)

/-- Dispatching one queue item: the request starts now, its promise joins
the working set, and the trace records the new working-set size. The
dispatch index (`results` so far plus in-flight) selects the latency and
outcome from the environment. -/
def dispatchItem (lat : Nat → Nat) (oc : Nat → HttpOutcome)
    (item : RequestQueueItem) (st : PQState) : PQState :=
  let j := st.results.length + st.active.length
  let fl : Flight :=
    { res := loadTestUrl item.url st.now (lat j) (oc j), finish := st.now + lat j }
  { st with
    active := st.active ++ [fl],
    trace := st.trace ++ [st.active.length + 1] }

/-- Embedding of `processQueue` from `src/load-test.ts`: for each queue item
the duration check may stop dispatch permanently (recording the leftover
queue and the elapsed time); otherwise, when the working set is at the
concurrency cap the scheduler first waits for a completion, and then the
item is dispatched. After the loop the remaining in-flight requests drain. -/
def processQueue (c : Nat) (dur : Option Nat) (lat : Nat → Nat)
    (oc : Nat → HttpOutcome) : List RequestQueueItem → PQState → PQState
  | [], st => drainAll st
  | item :: rest, st =>
    if durationExceeded dur st then
      drainAll { st with leftover := item :: rest, brokeAt := some (st.now - st.start) }
    else
      processQueue c dur lat oc rest
        (dispatchItem lat oc item (if c ≤ st.active.length then raceWait st else st))

/-- Fresh scheduler state at the test start time. -/
def initState (t0 : Nat) : PQState :=
  { now := t0, start := t0, active := [], results := [], trace := [],
    leftover := [], brokeAt := none }

/-- The final scheduler state of `runLoadTest`: options resolved through the
`||` defaults (concurrency 10, requestsPerUrl 1, duration left optional),
the request queue built eagerly, then `processQueue` run from scratch. -/
def runLoadTestState (urls : List String) (opts : LoadTestOptions)
    (lat : Nat → Nat) (oc : Nat → HttpOutcome) (t0 : Nat) : PQState :=
  processQueue (resolveOpt opts.concurrency 10) opts.duration lat oc
    (buildRequestQueue urls (resolveOpt opts.requestsPerUrl 1)) (initState t0)

/-- Embedding of `runLoadTest`: the collected results together with the
summary computed over them at the elapsed wall-clock seconds. -/
def runLoadTest (urls : List String) (opts : LoadTestOptions)
    (lat : Nat → Nat) (oc : Nat → HttpOutcome) (t0 : Nat) :
    List LoadTestResult × LoadTestSummary :=
  let st := runLoadTestState urls opts lat oc t0
  (st.results,
    calculateLoadTestSummary st.results (((st.now - st.start : Nat) : ℚ) / 1000))

/-- One repetition pass appends every URL once, after all earlier passes. -/
theorem buildRequestQueue_succ (urls : List String) (n : Nat) :
    buildRequestQueue urls (n + 1) =
      buildRequestQueue urls n ++ urls.map (fun u => { url := u, index := n }) := by
  unfold buildRequestQueue
  rw [List.range_succ, List.foldl_append]
  rfl

/-- The queue size is fixed at `|urls| * requestsPerUrl`. -/
theorem buildRequestQueue_length (urls : List String) (n : Nat) :
    (buildRequestQueue urls n).length = urls.length * n := by
  induction n with
  | zero => rfl
  | succ n ih =>
    rw [buildRequestQueue_succ, List.length_append, List.length_map, ih,
      Nat.mul_succ]

/-- The queue is the cross-product of URLs and repetition indices,
URL-major within each repetition pass: position `i * |urls| + j` holds the
`j`-th URL paired with repetition index `i`. -/
theorem buildRequestQueue_get (urls : List String) (n i j : Nat)
    (hi : i < n) (hj : j < urls.length) :
    (buildRequestQueue urls n)[i * urls.length + j]? =
      some { url := urls.get ⟨j, hj⟩, index := i } := by
  induction n with
  | zero => omega
  | succ n ih =>
    rw [buildRequestQueue_succ, List.getElem?_append]
    by_cases hin : i < n
    · have hlt : i * urls.length + j < (buildRequestQueue urls n).length := by
        rw [buildRequestQueue_length]
        calc i * urls.length + j < i * urls.length + urls.length := by omega
          _ = (i + 1) * urls.length := by ring
          _ ≤ n * urls.length := Nat.mul_le_mul_right _ (by omega)
          _ = urls.length * n := Nat.mul_comm _ _
      rw [if_pos hlt]
      exact ih hin
    · have hieq : i = n := by omega
      have hge : ¬ (i * urls.length + j < (buildRequestQueue urls n).length) := by
        rw [buildRequestQueue_length, hieq, Nat.mul_comm urls.length n]
        exact Nat.not_lt.mpr (Nat.le_add_right _ _)
      rw [if_neg hge, buildRequestQueue_length]
      have harith : i * urls.length + j - urls.length * n = j := by
        rw [hieq, Nat.mul_comm urls.length n]
        exact Nat.add_sub_cancel_left (n * urls.length) j
      rw [harith, List.getElem?_map, List.getElem?_eq_getElem hj, hieq]
      simp [List.get_eq_getElem]

/-- The two complementary time filters of `raceWait` split the working
set. -/
theorem length_filter_finish_split (t : Nat) (l : List Flight) :
    (l.filter (fun fl => decide (fl.finish ≤ t))).length +
      (l.filter (fun fl => decide (t < fl.finish))).length = l.length := by
  have h : l.filter (fun fl => decide (t < fl.finish)) =
      l.filter (fun fl => ! decide (fl.finish ≤ t)) := by
    apply List.filter_congr
    intro fl _
    rw [← decide_not]
    exact decide_eq_decide.mpr (by omega)
  rw [h]
  exact length_filter_add_length_filter_not l (fun fl => decide (fl.finish ≤ t))

/-- A completion wait moves requests from the working set to the results,
preserving the total count of dispatched requests. -/
theorem raceWait_sum (st : PQState) :
    (raceWait st).results.length + (raceWait st).active.length =
      st.results.length + st.active.length := by
  unfold raceWait
  split
  · rfl
  · next m hm =>
    show (st.results ++
        (st.active.filter (fun fl => decide (fl.finish ≤ Nat.max st.now m))).map
          (fun fl => fl.res)).length +
        (st.active.filter (fun fl => decide (Nat.max st.now m < fl.finish))).length =
      st.results.length + st.active.length
    rw [List.length_append, List.length_map]
    have h2 := length_filter_finish_split (Nat.max st.now m) st.active
    omega

/-- A completion wait leaves the leftover queue, break marker, start time
and trace-prefix untouched; the trace gains at most the new working-set
size. -/
theorem raceWait_fields (st : PQState) :
    (raceWait st).leftover = st.leftover ∧ (raceWait st).brokeAt = st.brokeAt ∧
      (raceWait st).start = st.start := by
  unfold raceWait
  split
  · exact ⟨rfl, rfl, rfl⟩
  · exact ⟨rfl, rfl, rfl⟩

/-- The trace after a completion wait is the old trace, possibly extended by
the new working-set size. -/
theorem raceWait_trace (st : PQState) :
    (raceWait st).trace = st.trace ∨
      (raceWait st).trace = st.trace ++ [(raceWait st).active.length] := by
  unfold raceWait
  split
  · exact Or.inl rfl
  · exact Or.inr rfl

/-- A completion wait never grows the working set. -/
theorem raceWait_active_le (st : PQState) :
    (raceWait st).active.length ≤ st.active.length := by
  unfold raceWait
  split
  · exact Nat.le_refl _
  · exact List.length_filter_le _ _

/-- The least element of a nonempty list is attained. -/
theorem listMinNat_mem (xs : List Nat) (m : Nat) (h : listMinNat xs = some m) :
    m ∈ xs := by
  induction xs generalizing m with
  | nil => cases h
  | cons x l ih =>
    rw [listMinNat] at h
    cases h2 : listMinNat l with
    | none =>
      rw [h2] at h
      cases h
      exact List.mem_cons_self _ _
    | some k =>
      rw [h2] at h
      cases h
      rcases min_choice x k with hm | hm
      · rw [hm]; exact List.mem_cons_self _ _
      · rw [hm]; exact List.mem_cons_of_mem _ (ih k h2)

/-- A nonempty list has a least element. -/
theorem listMinNat_ne_none (xs : List Nat) (hne : xs ≠ []) :
    listMinNat xs ≠ none := by
  cases xs with
  | nil => exact absurd rfl hne
  | cons x l =>
    rw [listMinNat]
    cases h : listMinNat l <;> simp

/-- A filter that drops some member of the list is strictly shorter. -/
theorem length_filter_lt_of_mem_false {α : Type} (l : List α) (q : α → Bool)
    (a : α) (ha : a ∈ l) (hqa : q a = false) :
    (l.filter q).length < l.length := by
  have h := length_filter_lt_of_witness l (fun _ => true) q a ha rfl hqa
    (fun x _ _ => rfl)
  simpa using h

/-- When the working set is nonempty, a completion wait strictly shrinks it:
at least the request that settles earliest is removed. -/
theorem raceWait_active_lt (st : PQState) (h : 1 ≤ st.active.length) :
    (raceWait st).active.length < st.active.length := by
  unfold raceWait
  split
  · next hm =>
    exfalso
    have hne : st.active.map (fun fl => fl.finish) ≠ [] := by
      cases hact : st.active with
      | nil => rw [hact] at h; simp at h
      | cons a l => simp
    exact listMinNat_ne_none _ hne hm
  · next m hm =>
    obtain ⟨fl, hfl, hfin⟩ := List.mem_map.mp (listMinNat_mem _ m hm)
    show (st.active.filter (fun fl => decide (Nat.max st.now m < fl.finish))).length <
      st.active.length
    apply length_filter_lt_of_mem_false st.active _ fl hfl
    exact decide_eq_false (by rw [hfin]; exact Nat.not_lt.mpr (Nat.le_max_right _ _))

/-- Unfolding lemma: with an empty queue the scheduler just drains. -/
theorem processQueue_nil (c : Nat) (dur : Option Nat) (lat : Nat → Nat)
    (oc : Nat → HttpOutcome) (st : PQState) :
    processQueue c dur lat oc [] st = drainAll st := rfl

/-- Unfolding lemma: when the duration budget is not exceeded, the scheduler
waits at capacity if needed, dispatches the item and continues. -/
theorem processQueue_cons_go (c : Nat) (dur : Option Nat) (lat : Nat → Nat)
    (oc : Nat → HttpOutcome) (item : RequestQueueItem)
    (rest : List RequestQueueItem) (st : PQState)
    (h : durationExceeded dur st = false) :
    processQueue c dur lat oc (item :: rest) st =
      processQueue c dur lat oc rest
        (dispatchItem lat oc item (if c ≤ st.active.length then raceWait st else st)) := by
  rw [processQueue, h]
  simp

/-- Unfolding lemma: once the duration budget is exceeded, dispatch stops
permanently — the whole remaining queue is recorded as leftover, the elapsed
time is recorded, and the in-flight requests drain. -/
theorem processQueue_cons_stop (c : Nat) (dur : Option Nat) (lat : Nat → Nat)
    (oc : Nat → HttpOutcome) (item : RequestQueueItem)
    (rest : List RequestQueueItem) (st : PQState)
    (h : durationExceeded dur st = true) :
    processQueue c dur lat oc (item :: rest) st =
      drainAll
        { st with leftover := item :: rest, brokeAt := some (st.now - st.start) } := by
  rw [processQueue, h]
  simp

/-- Dispatch adds one in-flight request and touches nothing else except the
trace. -/
theorem dispatchItem_fields (lat : Nat → Nat) (oc : Nat → HttpOutcome)
    (item : RequestQueueItem) (st : PQState) :
    (dispatchItem lat oc item st).results = st.results ∧
    (dispatchItem lat oc item st).active.length = st.active.length + 1 ∧
    (dispatchItem lat oc item st).leftover = st.leftover ∧
    (dispatchItem lat oc item st).brokeAt = st.brokeAt ∧
    (dispatchItem lat oc item st).trace = st.trace ++ [st.active.length + 1] := by
  refine ⟨rfl, ?_, rfl, rfl, rfl⟩
  show (st.active ++ [_]).length = st.active.length + 1
  rw [List.length_append]
  rfl

/-- With no duration cap every queue item is dispatched and every dispatched
request delivers exactly one result, so the final result count is the
initial count plus the working set plus the whole queue, and the working set
fully drains. -/
theorem processQueue_no_cap (c : Nat) (lat : Nat → Nat) (oc : Nat → HttpOutcome) :
    ∀ (q : List RequestQueueItem) (st : PQState),
      (processQueue c none lat oc q st).results.length =
        st.results.length + st.active.length + q.length ∧
      (processQueue c none lat oc q st).active = [] := by
  intro q
  induction q with
  | nil =>
    intro st
    refine ⟨?_, rfl⟩
    show (drainAll st).results.length = _
    simp [drainAll]
  | cons item rest ih =>
    intro st
    rw [processQueue_cons_go c none lat oc item rest st rfl]
    obtain ⟨hr, ha⟩ :=
      ih (dispatchItem lat oc item (if c ≤ st.active.length then raceWait st else st))
    refine ⟨?_, ha⟩
    rw [hr]
    obtain ⟨hd1, hd2, -, -, -⟩ :=
      dispatchItem_fields lat oc item (if c ≤ st.active.length then raceWait st else st)
    rw [hd1, hd2]
    by_cases hcap : c ≤ st.active.length
    · rw [if_pos hcap]
      have hsum := raceWait_sum st
      simp only [List.length_cons]
      omega
    · rw [if_neg hcap]
      simp only [List.length_cons]
      omega

/-- The resolved concurrency is always positive: `options.concurrency || 10`
maps both a missing option and a falsy `0` to the default `10`. -/
theorem resolveOpt_pos (o : Option Nat) : 1 ≤ resolveOpt o 10 := by
  cases o with
  | none => decide
  | some v =>
    by_cases h : v = 0
    · subst h; decide
    · simp only [resolveOpt, if_neg h]
      omega

/-- The working-set size never exceeds the concurrency cap: starting from a
working set within the cap, every size the scheduler ever records stays
within the cap, because at capacity it waits for a completion (which
strictly shrinks the set) before dispatching. -/
theorem processQueue_trace_le (c : Nat) (dur : Option Nat) (lat : Nat → Nat)
    (oc : Nat → HttpOutcome) (hc : 1 ≤ c) :
    ∀ (q : List RequestQueueItem) (st : PQState),
      st.active.length ≤ c → (∀ t ∈ st.trace, t ≤ c) →
      ∀ t ∈ (processQueue c dur lat oc q st).trace, t ≤ c := by
  intro q
  induction q with
  | nil =>
    intro st hact htr t ht
    rw [processQueue_nil] at ht
    rcases List.mem_append.mp ht with h | h
    · exact htr t h
    · rw [List.mem_singleton] at h; omega
  | cons item rest ih =>
    intro st hact htr t ht
    cases hdur : durationExceeded dur st with
    | true =>
      rw [processQueue_cons_stop c dur lat oc item rest st hdur] at ht
      rcases List.mem_append.mp ht with h | h
      · exact htr t h
      · rw [List.mem_singleton] at h; omega
    | false =>
      rw [processQueue_cons_go c dur lat oc item rest st hdur] at ht
      by_cases hcap : c ≤ st.active.length
      · rw [if_pos hcap] at ht
        have hlt : (raceWait st).active.length < st.active.length :=
          raceWait_active_lt st (by omega)
        have htr1 : ∀ u ∈ (raceWait st).trace, u ≤ c := by
          rcases raceWait_trace st with he | he <;> rw [he]
          · exact htr
          · intro u hu
            rcases List.mem_append.mp hu with h | h
            · exact htr u h
            · rw [List.mem_singleton] at h; omega
        obtain ⟨-, hd2, -, -, hd5⟩ := dispatchItem_fields lat oc item (raceWait st)
        refine ih _ ?_ ?_ t ht
        · rw [hd2]; omega
        · rw [hd5]
          intro u hu
          rcases List.mem_append.mp hu with h | h
          · exact htr1 u h
          · rw [List.mem_singleton] at h; omega
      · rw [if_neg hcap] at ht
        obtain ⟨-, hd2, -, -, hd5⟩ := dispatchItem_fields lat oc item st
        refine ih _ ?_ ?_ t ht
        · rw [hd2]; omega
        · rw [hd5]
          intro u hu
          rcases List.mem_append.mp hu with h | h
          · exact htr u h
          · rw [List.mem_singleton] at h; omega

/-- With a duration cap, every queue item is either dispatched (and delivers
a result) or left in the leftover queue after the break; the working set
always drains before return; and a nonempty leftover queue means the break
fired with the elapsed time at or beyond the cap. -/
theorem processQueue_cap_core (c : Nat) (d : Nat) (lat : Nat → Nat)
    (oc : Nat → HttpOutcome) :
    ∀ (q : List RequestQueueItem) (st : PQState),
      st.leftover = [] → st.brokeAt = none →
      ((processQueue c (some d) lat oc q st).active = [] ∧
        (processQueue c (some d) lat oc q st).results.length +
          (processQueue c (some d) lat oc q st).leftover.length =
          st.results.length + st.active.length + q.length ∧
        ((processQueue c (some d) lat oc q st).leftover ≠ [] →
          ∃ e, (processQueue c (some d) lat oc q st).brokeAt = some e ∧
            1000 * d ≤ e)) := by
  intro q
  induction q with
  | nil =>
    intro st hl hb
    rw [processQueue_nil]
    refine ⟨rfl, ?_, ?_⟩
    · show (st.results ++ st.active.map (fun fl => fl.res)).length + st.leftover.length = _
      rw [hl, List.length_append, List.length_map]
    · intro hne
      exact absurd hl hne
  | cons item rest ih =>
    intro st hl hb
    cases hdur : durationExceeded (some d) st with
    | true =>
      rw [processQueue_cons_stop c (some d) lat oc item rest st hdur]
      have hde : 0 < d ∧ 1000 * d ≤ st.now - st.start := by
        unfold durationExceeded at hdur
        rw [Bool.and_eq_true, decide_eq_true_eq, decide_eq_true_eq] at hdur
        exact hdur
      refine ⟨rfl, ?_, ?_⟩
      · show (st.results ++ st.active.map (fun fl => fl.res)).length +
          (item :: rest).length = _
        rw [List.length_append, List.length_map]
      · intro _
        exact ⟨st.now - st.start, rfl, hde.2⟩
    | false =>
      rw [processQueue_cons_go c (some d) lat oc item rest st hdur]
      set st1 := if c ≤ st.active.length then raceWait st else st with hst1
      have hf1 : st1.leftover = st.leftover ∧ st1.brokeAt = st.brokeAt ∧
          st1.results.length + st1.active.length =
            st.results.length + st.active.length := by
        rw [hst1]
        by_cases hcap : c ≤ st.active.length
        · rw [if_pos hcap]
          obtain ⟨h1, h2, -⟩ := raceWait_fields st
          exact ⟨h1, h2, raceWait_sum st⟩
        · rw [if_neg hcap]
          exact ⟨rfl, rfl, rfl⟩
      obtain ⟨hd1, hd2, hd3, hd4, -⟩ := dispatchItem_fields lat oc item st1
      obtain ⟨hq1, hq2, hq3⟩ := ih (dispatchItem lat oc item st1)
        (by rw [hd3, hf1.1, hl]) (by rw [hd4, hf1.2.1, hb])
      refine ⟨hq1, ?_, hq3⟩
      rw [hq2, hd1, hd2, List.length_cons]
      have := hf1.2.2
      omega

/-- C3: The request queue is built eagerly as the cross-product of the URL
list and the repetition indices `[0, requestsPerUrl)`, URL-major within each
repetition pass, with fixed size `|urls| * requestsPerUrl`; with no duration
cap, the run produces exactly `requestsPerUrl * |urls|` results. -/
theorem runLoadTest_queue_and_count (urls : List String) (opts : LoadTestOptions)
    (lat : Nat → Nat) (oc : Nat → HttpOutcome) (t0 : Nat) (n i j : Nat)
    (hn : opts.requestsPerUrl = some n) (hn1 : 1 ≤ n) (hd : opts.duration = none)
    (hi : i < n) (hj : j < urls.length) :
    (buildRequestQueue urls n).length = urls.length * n ∧
    (buildRequestQueue urls n)[i * urls.length + j]? =
      some { url := urls.get ⟨j, hj⟩, index := i } ∧
    (runLoadTestState urls opts lat oc t0).results.length = n * urls.length := by
  refine ⟨buildRequestQueue_length urls n, buildRequestQueue_get urls n i j hi hj, ?_⟩
  unfold runLoadTestState
  rw [hd]
  have hne : n ≠ 0 := by omega
  have hres : resolveOpt opts.requestsPerUrl 1 = n := by
    rw [hn]; simp [resolveOpt, hne]
  rw [hres,
    (processQueue_no_cap (resolveOpt opts.concurrency 10) lat oc
      (buildRequestQueue urls n) (initState t0)).1]
  show 0 + 0 + (buildRequestQueue urls n).length = n * urls.length
  rw [buildRequestQueue_length, Nat.mul_comm urls.length n]
  simp

/-- C3 witness: two URLs, two repetitions per URL, no cap — a queue of four
items with item `(i, j) = (1, 0)` being the first URL at repetition 1, and
exactly four results. -/
theorem runLoadTest_queue_and_count_witness :
    (buildRequestQueue ["a", "b"] 2).length = 2 * 2 ∧
    (buildRequestQueue ["a", "b"] 2)[1 * 2 + 0]? = some { url := "a", index := 1 } ∧
    (runLoadTestState ["a", "b"] ⟨some 3, some 2, none⟩ (fun _ => 5)
      (fun _ => HttpOutcome.response 200) 0).results.length = 2 * 2 :=
  runLoadTest_queue_and_count ["a", "b"] ⟨some 3, some 2, none⟩ (fun _ => 5)
    (fun _ => HttpOutcome.response 200) 0 2 1 0 rfl (by decide) rfl (by decide) (by decide)

/-- C7: During a load-test run, every working-set size the scheduler ever
records stays within the resolved concurrency cap; and when the working set
is nonempty (in particular when it is at capacity), the completion wait
strictly shrinks it before the next dispatch. -/
theorem processQueue_concurrency_bound (urls : List String) (opts : LoadTestOptions)
    (lat : Nat → Nat) (oc : Nat → HttpOutcome) (t0 : Nat) (t : Nat) (st : PQState)
    (ht : t ∈ (runLoadTestState urls opts lat oc t0).trace)
    (hst : 1 ≤ st.active.length) :
    t ≤ resolveOpt opts.concurrency 10 ∧
    (raceWait st).active.length < st.active.length :=
  ⟨processQueue_trace_le (resolveOpt opts.concurrency 10) opts.duration lat oc
      (resolveOpt_pos opts.concurrency)
      (buildRequestQueue urls (resolveOpt opts.requestsPerUrl 1)) (initState t0)
      (by simp [initState]) (by intro u hu; simp [initState] at hu) t ht,
   raceWait_active_lt st hst⟩

/-- C7 witness: a one-URL run with concurrency 2 records working-set size 1,
within the cap; a singleton working set shrinks strictly under the
completion wait. -/
theorem processQueue_concurrency_bound_witness :
    (1 : Nat) ≤ resolveOpt (some 2) 10 ∧
    (raceWait ⟨0, 0, [⟨⟨"u", true, some 200, 5, none, 5⟩, 7⟩], [], [], [], none⟩).active.length <
      (⟨0, 0, [⟨⟨"u", true, some 200, 5, none, 5⟩, 7⟩], [], [], [], none⟩ : PQState).active.length :=
  processQueue_concurrency_bound ["u"] ⟨some 2, some 1, none⟩ (fun _ => 5)
    (fun _ => HttpOutcome.response 200) 0 1
    ⟨0, 0, [⟨⟨"u", true, some 200, 5, none, 5⟩, 7⟩], [], [], [], none⟩
    (by decide) (by decide)

/-- C8: With a duration cap set, every queue item either delivers a result
or is left undispatched after the break, the working set fully drains before
return, and a nonempty leftover queue means the break fired at an elapsed
time at or beyond the cap — producing strictly fewer results than the queue
size. -/
theorem processQueue_duration_cap (urls : List String) (opts : LoadTestOptions)
    (lat : Nat → Nat) (oc : Nat → HttpOutcome) (t0 : Nat) (d : Nat)
    (hdur : opts.duration = some d) :
    (runLoadTestState urls opts lat oc t0).active = [] ∧
    (runLoadTestState urls opts lat oc t0).results.length +
      (runLoadTestState urls opts lat oc t0).leftover.length =
      (buildRequestQueue urls (resolveOpt opts.requestsPerUrl 1)).length ∧
    ((runLoadTestState urls opts lat oc t0).leftover ≠ [] →
      (runLoadTestState urls opts lat oc t0).results.length <
        (buildRequestQueue urls (resolveOpt opts.requestsPerUrl 1)).length ∧
      ∃ e, (runLoadTestState urls opts lat oc t0).brokeAt = some e ∧ 1000 * d ≤ e) := by
  unfold runLoadTestState
  rw [hdur]
  obtain ⟨h1, h2, h3⟩ := processQueue_cap_core (resolveOpt opts.concurrency 10) d lat oc
    (buildRequestQueue urls (resolveOpt opts.requestsPerUrl 1)) (initState t0) rfl rfl
  rw [show (initState t0).results.length + (initState t0).active.length +
      (buildRequestQueue urls (resolveOpt opts.requestsPerUrl 1)).length =
      (buildRequestQueue urls (resolveOpt opts.requestsPerUrl 1)).length from by
    simp [initState]] at h2
  refine ⟨h1, h2, ?_⟩
  intro hne
  have hpos : 0 < (processQueue (resolveOpt opts.concurrency 10) (some d) lat oc
      (buildRequestQueue urls (resolveOpt opts.requestsPerUrl 1))
      (initState t0)).leftover.length :=
    List.length_pos.mpr hne
  exact ⟨by omega, h3 hne⟩

/-- C8 witness: three URLs, concurrency 1, a 1-second cap and 2000 ms
latencies — the break fires after the second dispatch at elapsed 2000 ms,
leaving one item undispatched: 2 results out of a queue of 3, working set
drained. -/
theorem processQueue_duration_cap_witness :
    (runLoadTestState ["a", "b", "c"] ⟨some 1, some 1, some 1⟩ (fun _ => 2000)
      (fun _ => HttpOutcome.response 200) 0).active = [] ∧
    (runLoadTestState ["a", "b", "c"] ⟨some 1, some 1, some 1⟩ (fun _ => 2000)
        (fun _ => HttpOutcome.response 200) 0).results.length +
      (runLoadTestState ["a", "b", "c"] ⟨some 1, some 1, some 1⟩ (fun _ => 2000)
        (fun _ => HttpOutcome.response 200) 0).leftover.length =
      (buildRequestQueue ["a", "b", "c"] (resolveOpt (some 1) 1)).length ∧
    ((runLoadTestState ["a", "b", "c"] ⟨some 1, some 1, some 1⟩ (fun _ => 2000)
        (fun _ => HttpOutcome.response 200) 0).results.length <
      (buildRequestQueue ["a", "b", "c"] (resolveOpt (some 1) 1)).length ∧
      ∃ e, (runLoadTestState ["a", "b", "c"] ⟨some 1, some 1, some 1⟩ (fun _ => 2000)
        (fun _ => HttpOutcome.response 200) 0).brokeAt = some e ∧ 1000 * 1 ≤ e) := by
  have h := processQueue_duration_cap ["a", "b", "c"] ⟨some 1, some 1, some 1⟩
    (fun _ => 2000) (fun _ => HttpOutcome.response 200) 0 1 rfl
  exact ⟨h.1, h.2.1, h.2.2 (by decide)⟩
